import Mathlib

/-!
Verification of the data-access layer of a jobs/users REST API
(models `User` and `Job` backed by a relational store).

The JavaScript models are shallowly embedded: the relational store is a
`DB` record of three tables (lists of rows); every repository operation is
a pure Lean function from the inputs and the pre-state to an `Except`
result (the thrown `ExpressError` subclasses) together with the
post-state.  Query results that JavaScript sees as plain objects (the pg
driver returns each row as an object keyed by column alias) are modelled
as association lists `Obj` of field name / value pairs, so that deleting
or omitting a key (for example the write-only `password` field) is
observable in the model exactly as it is in the code.
-/

/-- A SQL parameter / column value as it travels between the model layer
and the store: text, integer, numeric (Postgres NUMERIC, modelled as a
rational), boolean, or NULL. -/
inductive SqlVal where
  | str (s : String)
  | num (n : Nat)
  | dec (q : Rat)
  | bool (b : Bool)
  | null
deriving Repr, DecidableEq

/-- The error kinds thrown by the data-access layer.  `notFound`,
`badRequest` and `unauthorized` model the `NotFoundError` (404),
`BadRequestError` (400) and `UnauthorizedError` (401) subclasses of
`ExpressError`; `express` models a directly-constructed
`ExpressError(message, status)`; `sqlSyntax` models a syntax error raised
by the database driver itself; `jsTypeError` models a JavaScript runtime
`TypeError`. -/
inductive DomainError where
  | notFound (msg : String)
  | badRequest (msg : String)
  | unauthorized (msg : String)
  | express (msg : String) (status : Nat)
  | sqlSyntax (msg : String)
  | jsTypeError (msg : String)
deriving Repr, DecidableEq

/-- A row of the `users` table:
`users(username PK, password, first_name, last_name, email, is_admin)`. -/
structure UserRow where
  username : String
  password : String
  firstName : String
  lastName : String
  email : String
  isAdmin : Bool
deriving Repr, DecidableEq

/-- A row of the `jobs` table:
`jobs(id PK, title, salary, equity, company_handle FK)`.
`equity` is a Postgres NUMERIC in [0,1], modelled as a rational. -/
structure JobRow where
  id : Nat
  title : String
  salary : Nat
  equity : Rat
  companyHandle : String
deriving Repr, DecidableEq

/-- A row of the `applications` join table:
`applications(username FK, job_id FK)`. -/
structure AppRow where
  username : String
  jobId : Nat
deriving Repr, DecidableEq

/-- The relational store: the three tables owned by the database. -/
structure DB where
  users : List UserRow
  jobs : List JobRow
  apps : List AppRow
deriving Repr, DecidableEq

/-- A JavaScript object as returned to callers of the model layer: an
association list of field names and values, in property order. -/
def Obj : Type := List (String × SqlVal)

instance : DecidableEq Obj := inferInstanceAs (DecidableEq (List (String × SqlVal)))

/-- The keys (property names) of an object. -/
def Obj.keys (o : Obj) : List String := o.map Prod.fst

/-- Model of the JavaScript `delete o[k]` statement: the object without
the property `k`. -/
def objDelete (k : String) (o : Obj) : Obj := o.filter (fun p => p.1 != k)

/-- Model of `bcrypt.hash(pw, BCRYPT_WORK_FACTOR)`: an injective one-way
tagging of the plaintext.  The work factor plays no role in any property
proved here. -/
def bcryptHash (pw : String) : String := "bcrypt13$" ++ pw

/-- Model of `bcrypt.compare(pw, stored)`: true exactly when `stored` is
the hash of `pw`. -/
def bcryptCompare (pw stored : String) : Bool := stored == bcryptHash pw

/-- JavaScript truthiness of an optional string value (`undefined` and
the empty string are falsy). -/
def jsTruthyS : Option String → Bool
  | none => false
  | some s => s != ""

/-- JavaScript truthiness of an optional number value (`undefined` and
`0` are falsy). -/
def jsTruthyN : Option Nat → Bool
  | none => false
  | some n => n != 0

/-! ### Partial-update clause builder -/

/-- The physical column used for a logical field name: the rename
mapping's entry when one is present, otherwise the field name itself
(models `jsToSql[colName] || colName`). -/
def colFor (m : List (String × String)) (k : String) : String :=
  (m.lookup k).getD k

/-- The assignment clauses produced by the clause builder: one per key of
`data`, in iteration order, the `i`-th (0-based) clause using positional
parameter `$(i+1)` (models `keys.map((colName, idx) => ...)`). -/
def updateClauses (data : List (String × SqlVal)) (m : List (String × String)) : List String :=
  data.enum.map (fun p => colFor m p.2.1 ++ " = $" ++ toString (p.1 + 1))

/-- Modelled from the spec: the Partial-Update Clause Builder
`sqlForPartialUpdate` of `helpers/sql.js`, whose source file is not among
the provided sources (only its callers `User.update` and `Job.update`
are).  Per spec section 4.1 it takes the sparse field mapping and the
logical-to-physical rename mapping, fails with a "no data" validation
error (`BadRequestError`) when the mapping is empty, and otherwise
returns the comma-joined parameterized assignment clause covering every
key in iteration order together with the ordered value list. -/
def sqlForPartialUpdate (data : List (String × SqlVal)) (m : List (String × String)) :
    Except DomainError (String × List SqlVal) :=
  if data.isEmpty then .error (.badRequest "No data")
  else .ok (String.intercalate ", " (updateClauses data m), data.map Prod.snd)

/-- Spec-side rendering of assignment clauses with explicitly contiguous
positional parameters: clause `k` of the column list gets parameter
`$(start + k)`. -/
def setClausesFrom : Nat → List String → List String
  | _, [] => []
  | i, c :: rest => (c ++ " = $" ++ toString i) :: setClausesFrom (i + 1) rest

/-! ### Predicate composer: `Job.find` -/

/-- The optional filter bag accepted by `Job.find`.  `hasEquity` defaults
to `0` in the source (`hasEquity = 0`), so an absent flag and a false
flag are indistinguishable; it is modelled as a `Bool`. -/
structure FilterBag where
  title : Option String
  minSalary : Option Nat
  hasEquity : Bool
  companyHandle : Option String
deriving Repr, DecidableEq

namespace Job

/-- Transliteration of the predicate-building prefix of `Job.find`: the
`sqlComponents` and `sqlInputs` arrays accumulated by the four truthiness
guards, with the positional-parameter counter `i` starting at `1` and
post-incremented (`$${i++}`) exactly when a value is pushed. -/
def findBuild (f : FilterBag) : List String × List SqlVal :=
  let comps : List String := []
  let inputs : List SqlVal := []
  let i : Nat := 1
  let s1 :=
    if jsTruthyS f.title then
      (comps ++ ["lower(title) like lower($" ++ toString i ++ ")"],
       inputs ++ [SqlVal.str ("%" ++ f.title.getD "" ++ "%")], i + 1)
    else (comps, inputs, i)
  let s2 :=
    if f.hasEquity then (s1.1 ++ ["equity > 0"], s1.2.1, s1.2.2) else s1
  let s3 :=
    if jsTruthyN f.minSalary then
      (s2.1 ++ ["salary >= $" ++ toString s2.2.2],
       s2.2.1 ++ [SqlVal.num (f.minSalary.getD 0)], s2.2.2 + 1)
    else s2
  let s4 :=
    if jsTruthyS f.companyHandle then
      (s3.1 ++ ["company_handle = $" ++ toString s3.2.2],
       s3.2.1 ++ [SqlVal.str (f.companyHandle.getD "")], s3.2.2 + 1)
    else s3
  (s4.1, s4.2.1)

/-- The WHERE predicate text of `Job.find`: the accumulated components
joined with logical AND (`sqlComponents.join(' and ')`). -/
def findWhere (f : FilterBag) : String :=
  String.intercalate " and " (findBuild f).1

end Job

/-- `true` when `needle` starts `hay` (character lists compared
pointwise). -/
def startsWithChars : List Char → List Char → Bool
  | [], _ => true
  | _ :: _, [] => false
  | a :: as, b :: bs => a == b && startsWithChars as bs

/-- `true` when `needle` occurs contiguously inside `hay`. -/
def charsHasSub (needle : List Char) : List Char → Bool
  | [] => needle.isEmpty
  | b :: rest => startsWithChars needle (b :: rest) || charsHasSub needle rest

/-- Semantics of the SQL predicate `lower(col) like lower('%' || pat || '%')`:
case-insensitive substring containment.  (Wildcard characters inside the
user value are not given their LIKE meaning; no property proved here
depends on values containing `%` or `_`.) -/
def likeContains (hay pat : String) : Bool :=
  charsHasSub pat.toLower.data hay.toLower.data

namespace Job

/-- Row semantics of the conjunction of the clauses emitted by
`findBuild`: a job row satisfies the predicate when every clause of every
truthy filter holds of it. -/
def rowMatches (f : FilterBag) (r : JobRow) : Bool :=
  (!jsTruthyS f.title || likeContains r.title (f.title.getD ""))
    && (!f.hasEquity || decide (0 < r.equity))
    && (!jsTruthyN f.minSalary || decide (f.minSalary.getD 0 ≤ r.salary))
    && (!jsTruthyS f.companyHandle || r.companyHandle == f.companyHandle.getD "")

/-- `Job.find`: executes
`select ... from jobs where <components joined with " and ">` with the
accumulated parameters.  When not a single clause was pushed the text
after `where` is empty, which the SQL parser rejects (a `SELECT` whose
`WHERE` keyword is followed by no expression is a syntax error), so the
driver raises and `Job.find` propagates the failure; otherwise the store
returns the rows satisfying the conjunction. -/
def find (f : FilterBag) (db : DB) : Except DomainError (List JobRow) :=
  if (findBuild f).1.isEmpty then .error (.sqlSyntax "syntax error at end of input")
  else .ok (db.jobs.filter (rowMatches f))

end Job

/-! ### Spec-side model of the predicate composer (for the refinement
claims): one clause per present filter, positional parameters contiguous
from `$1` in clause order. -/

/-- A present filter of the bag, with its value. -/
inductive FilterClause where
  | title (v : String)
  | equity
  | minSalary (v : Nat)
  | handle (v : String)
deriving Repr, DecidableEq

/-- The parameter value a clause binds: the `%value%` pattern for the
substring filter, the bound for the salary filter, the handle for the
exact-match filter, and nothing for the equity flag. -/
def FilterClause.value : FilterClause → Option SqlVal
  | .title v => some (.str ("%" ++ v ++ "%"))
  | .equity => none
  | .minSalary v => some (.num v)
  | .handle v => some (.str v)

/-- The SQL text of a clause when its positional parameter is `$i`. -/
def FilterClause.renderAt (c : FilterClause) (i : Nat) : String :=
  match c with
  | .title _ => "lower(title) like lower($" ++ toString i ++ ")"
  | .equity => "equity > 0"
  | .minSalary _ => "salary >= $" ++ toString i
  | .handle _ => "company_handle = $" ++ toString i

/-- The filters actually supplied (present and truthy), in the order the
composer examines them. -/
def presentFilters (f : FilterBag) : List FilterClause :=
  (if jsTruthyS f.title then [FilterClause.title (f.title.getD "")] else [])
    ++ (if f.hasEquity then [FilterClause.equity] else [])
    ++ (if jsTruthyN f.minSalary then [FilterClause.minSalary (f.minSalary.getD 0)] else [])
    ++ (if jsTruthyS f.companyHandle then [FilterClause.handle (f.companyHandle.getD "")] else [])

/-- Spec-side rendering: clauses in order, the parameter index starting
at `start` and incremented exactly by the clauses that bind a value. -/
def renderFilters : Nat → List FilterClause → List String
  | _, [] => []
  | i, c :: rest =>
      c.renderAt i :: renderFilters (if (c.value).isSome then i + 1 else i) rest

/-! ### User repository -/

/-- The full `users` row as the driver returns it to `authenticate`
(`SELECT username, password, first_name AS "firstName", ... FROM users`):
every column, including the stored password hash. -/
def userRowObj (r : UserRow) : Obj :=
  [("username", .str r.username), ("password", .str r.password),
   ("firstName", .str r.firstName), ("lastName", .str r.lastName),
   ("email", .str r.email), ("isAdmin", .bool r.isAdmin)]

/-- The five-field user projection every read path constructs or selects
(`username, firstName, lastName, email, isAdmin`) — no password. -/
def userObj5 (r : UserRow) : Obj :=
  [("username", .str r.username), ("firstName", .str r.firstName),
   ("lastName", .str r.lastName), ("email", .str r.email),
   ("isAdmin", .bool r.isAdmin)]

/-- A row of `users LEFT JOIN applications`: the user columns plus the
(possibly NULL) `job_id` of one of the user's applications. -/
structure FARow where
  user : UserRow
  job : Option Nat
deriving Repr, DecidableEq

/-- Lexicographic code-point comparison of character lists (models the
store's text ordering for `ORDER BY username`). -/
def charsLe : List Char → List Char → Bool
  | [], _ => true
  | _ :: _, [] => false
  | a :: as, b :: bs => if a = b then charsLe as bs else decide (a.toNat < b.toNat)

/-- Lexicographic string comparison. -/
def strLe (a b : String) : Bool := charsLe a.data b.data

/-- Insertion of a user into a list sorted by username (lexicographic
order models the store's `ORDER BY username` ascending). -/
def insertByUsername (u : UserRow) : List UserRow → List UserRow
  | [] => [u]
  | v :: rest =>
      if strLe u.username v.username then u :: v :: rest else v :: insertByUsername u rest

/-- The `users` table sorted by username ascending. -/
def sortByUsername (l : List UserRow) : List UserRow :=
  l.foldr insertByUsername []

/-- The rows of
`users u LEFT JOIN applications a ON a.username = u.username ORDER BY username`:
each user (by ascending username) paired with each of their application
job ids, or with NULL when they have none. -/
def leftJoinApps (db : DB) (us : List UserRow) : List FARow :=
  us.flatMap (fun u =>
    let as := db.apps.filter (fun a => a.username == u.username)
    if as.isEmpty then [⟨u, none⟩] else as.map (fun a => ⟨u, some a.jobId⟩))

namespace User

/-- One step of the `reduceRight` accumulation in `User.findAll`,
processing join rows right to left.  The guard is
`rows && rows[0] != row.username`: the accumulator array is always
truthy; when it is empty, `rows[0]` is `undefined` and the loose
inequality against a string holds; when it is non-empty, `rows[0]` is a
plain object, which the loose comparison coerces to the string
`"[object Object]"` — so the guard holds for every username other than
that string and a fresh record (without any `jobs` property: the
`jobs:[row.job]` line is commented out in the source) is unshifted.  In
the else branch the code evaluates `rows[0].jobs.unshift(row.job)` on
an object with no `jobs` property, a runtime `TypeError`. -/
def findAllStep (row : FARow) (macc : Except DomainError (List Obj)) :
    Except DomainError (List Obj) :=
  match macc with
  | .error e => .error e
  | .ok [] => .ok [userObj5 row.user]
  | .ok (o :: rest) =>
      if row.user.username == "[object Object]" then
        .error (.jsTypeError "Cannot read properties of undefined")
      else .ok (userObj5 row.user :: o :: rest)

/-- `User.findAll`: the left-join rows ordered by username, folded from
the right by `reduceRight` starting from the empty array. -/
def findAll (db : DB) : Except DomainError (List Obj) :=
  (leftJoinApps db (sortByUsername db.users)).foldr findAllStep (.ok [])

/-- The rows of the `User.get` query: the same left join restricted to
`WHERE u.username = $1` (no ordering clause). -/
def getRows (db : DB) (un : String) : List FARow :=
  leftJoinApps db (db.users.filter (fun u => u.username == un))

/-- `User.get`: not-found when the query returns no row (`!userRes.rowCount`),
otherwise the explicitly constructed five-field projection of the first
row — the `jobs` list is commented out in the source and does not appear. -/
def get (un : String) (db : DB) : Except DomainError Obj :=
  match getRows db un with
  | [] => .error (.notFound ("No user: " ++ un))
  | r :: _ => .ok (userObj5 r.user)

/-- `User.authenticate`: fetch the credential row by username; when a row
exists and `bcrypt.compare` accepts, delete its `password` property and
return it; in every other case throw the one `UnauthorizedError`. -/
def authenticate (un pw : String) (db : DB) : Except DomainError Obj :=
  match db.users.filter (fun r => r.username == un) with
  | [] => .error (.unauthorized "Invalid username/password")
  | r :: _ =>
      if bcryptCompare pw r.password then .ok (objDelete "password" (userRowObj r))
      else .error (.unauthorized "Invalid username/password")

/-- The registration payload. -/
structure RegFields where
  username : String
  password : String
  firstName : String
  lastName : String
  email : String
  isAdmin : Bool
deriving Repr, DecidableEq

/-- `User.register`: duplicate-username check first (`BadRequestError`),
otherwise insert the row with the hashed password and return the
`RETURNING` projection (no password column selected). -/
def register (f : RegFields) (db : DB) : Except DomainError Obj × DB :=
  if db.users.any (fun r => r.username == f.username) then
    (.error (.badRequest ("Duplicate username: " ++ f.username)), db)
  else
    let row : UserRow :=
      ⟨f.username, bcryptHash f.password, f.firstName, f.lastName, f.email, f.isAdmin⟩
    (.ok (userObj5 row), { db with users := db.users ++ [row] })

end User

/-- Model of `if (data.password) data.password = await bcrypt.hash(...)`:
when the payload carries a truthy `password` string, that property is
replaced in place by its hash. -/
def hashPasswordField (data : List (String × SqlVal)) : List (String × SqlVal) :=
  match data.lookup "password" with
  | some (.str s) =>
      if s == "" then data
      else data.map (fun p => if p.1 == "password" then (p.1, SqlVal.str (bcryptHash s)) else p)
  | _ => data

/-- The rename mapping `User.update` passes to the clause builder. -/
def userRename : List (String × String) :=
  [("firstName", "first_name"), ("lastName", "last_name"), ("isAdmin", "is_admin")]

/-- The rename mapping `Job.update` passes to the clause builder. -/
def jobRename : List (String × String) := [("companyHandle", "company_handle")]

/-- Effect of one SQL `SET` assignment on a `users` row. -/
def applyUserAssign (r : UserRow) : String × SqlVal → UserRow
  | ("username", .str s) => { r with username := s }
  | ("password", .str s) => { r with password := s }
  | ("first_name", .str s) => { r with firstName := s }
  | ("last_name", .str s) => { r with lastName := s }
  | ("email", .str s) => { r with email := s }
  | ("is_admin", .bool b) => { r with isAdmin := b }
  | _ => r

/-- Effect of the whole `SET` list on a `users` row. -/
def applyUserAssigns (r : UserRow) (assigns : List (String × SqlVal)) : UserRow :=
  assigns.foldl applyUserAssign r

/-- Effect of one SQL `SET` assignment on a `jobs` row. -/
def applyJobAssign (r : JobRow) : String × SqlVal → JobRow
  | ("title", .str s) => { r with title := s }
  | ("salary", .num n) => { r with salary := n }
  | ("equity", .dec q) => { r with equity := q }
  | ("equity", .num n) => { r with equity := (n : Rat) }
  | ("company_handle", .str s) => { r with companyHandle := s }
  | _ => r

/-- Effect of the whole `SET` list on a `jobs` row. -/
def applyJobAssigns (r : JobRow) (assigns : List (String × SqlVal)) : JobRow :=
  assigns.foldl applyJobAssign r

namespace User

/-- `User.update`: hash a truthy `password` field, delegate to the clause
builder with the `userRename` mapping (its "no data" failure propagates
before any statement runs), then execute
`UPDATE users SET ... WHERE username = $n RETURNING username, first_name,
last_name, email, is_admin`.  The `SET` clauses pair the renamed columns
with the builder's values in order, which the store applies to every row
matching the key; the returned row, if any, additionally has its (absent)
`password` property deleted; no returned row means the key did not exist
(`NotFoundError`). -/
def update (un : String) (data0 : List (String × SqlVal)) (db : DB) :
    Except DomainError Obj × DB :=
  let data := hashPasswordField data0
  match sqlForPartialUpdate data userRename with
  | .error e => (.error e, db)
  | .ok _ =>
      let assigns := data.map (fun p => (colFor userRename p.1, p.2))
      let matched := db.users.filter (fun r => r.username == un)
      let newUsers :=
        db.users.map (fun r => if r.username == un then applyUserAssigns r assigns else r)
      match matched with
      | [] => (.error (.notFound ("No user: " ++ un)), { db with users := newUsers })
      | r :: _ =>
          (.ok (objDelete "password" (userObj5 (applyUserAssigns r assigns))),
           { db with users := newUsers })

end User

namespace Job

/-- `Job.update`: delegate to the clause builder with the `jobRename`
mapping, then execute
`UPDATE jobs SET ... WHERE id = $n RETURNING id, title, equity, salary,
company_handle`; no returned row means the key did not exist. -/
def update (jid : Nat) (data : List (String × SqlVal)) (db : DB) :
    Except DomainError Obj × DB :=
  match sqlForPartialUpdate data jobRename with
  | .error e => (.error e, db)
  | .ok _ =>
      let assigns := data.map (fun p => (colFor jobRename p.1, p.2))
      let matched := db.jobs.filter (fun r => r.id == jid)
      let newJobs :=
        db.jobs.map (fun r => if r.id == jid then applyJobAssigns r assigns else r)
      match matched with
      | [] => (.error (.notFound ("No job: " ++ toString jid)), { db with jobs := newJobs })
      | r :: _ =>
          let s := applyJobAssigns r assigns
          (.ok [("id", .num s.id), ("title", .str s.title), ("equity", .dec s.equity),
                ("salary", .num s.salary), ("companyHandle", .str s.companyHandle)],
           { db with jobs := newJobs })

end Job

/-! ### `User.apply` and its full-outer-join existence query -/

/-- A row of `applications a FULL OUTER JOIN jobs j ON a.job_id = j.id`:
an application with its job, an application whose job id matches no job,
or a job no application refers to. -/
structure JRow1 where
  a : Option AppRow
  j : Option JobRow
deriving Repr, DecidableEq

/-- The rows the application `a` contributes to the first join: one per
job matching its `job_id`, or a single job-less row when none does. -/
def join1row (jobs : List JobRow) (a : AppRow) : List JRow1 :=
  let js := jobs.filter (fun j => j.id == a.jobId)
  if js.isEmpty then [⟨some a, none⟩] else js.map (fun j => ⟨some a, some j⟩)

/-- `applications FULL OUTER JOIN jobs ON a.job_id = j.id`: every
application's rows, followed by the jobs unmatched by any application. -/
def join1 (apps : List AppRow) (jobs : List JobRow) : List JRow1 :=
  apps.flatMap (join1row jobs)
    ++ (jobs.filter (fun j => !apps.any (fun a => a.jobId == j.id))).map
        (fun j => ⟨none, some j⟩)

/-- The selected columns `u.username, j.id` of one row of the second
join. -/
structure ApplyRow where
  username : Option String
  id : Option Nat
deriving Repr, DecidableEq

/-- Whether the join-1 row's application side matches the user `u` under
the condition `u.username = a.username` (NULL matches nothing). -/
def jrowMatchesUser (r : JRow1) (u : UserRow) : Bool :=
  match r.a with
  | some a => a.username == u.username
  | none => false

/-- The rows the join-1 row `r` contributes to the second join: one per
user matching its application's username, or a single user-less row when
its application side is NULL or matches no user. -/
def join2row (users : List UserRow) (r : JRow1) : List ApplyRow :=
  match r.a with
  | some a =>
      let us := users.filter (fun u => u.username == a.username)
      if us.isEmpty then [⟨none, r.j.map JobRow.id⟩]
      else us.map (fun u => ⟨some u.username, r.j.map JobRow.id⟩)
  | none => [⟨none, r.j.map JobRow.id⟩]

/-- `... FULL OUTER JOIN users u ON u.username = a.username`, projected
to `u.username, j.id`: every join-1 row's rows, followed by the users
unmatched by any application side. -/
def join2 (rows : List JRow1) (users : List UserRow) : List ApplyRow :=
  rows.flatMap (join2row users)
    ++ (users.filter (fun u => !rows.any (fun r => jrowMatchesUser r u))).map
        (fun u => ⟨some u.username, none⟩)

/-- The result set of the existence query of `User.apply`: the double
full outer join filtered by `WHERE u.username = $1 OR j.id = $2` (under
SQL three-valued logic a NULL column satisfies neither disjunct). -/
def applyQueryRows (db : DB) (un : String) (jid : Nat) : List ApplyRow :=
  (join2 (join1 db.apps db.jobs) db.users).filter
    (fun r => r.username == some un || r.id == some jid)

namespace User

/-- `User.apply`: run the existence query, then in order — no row naming
the user (`rows.find(line => line.username == username)` finds nothing)
throws `NotFoundError` naming the user; no row naming the job throws
`NotFoundError` naming the job; a row naming both (the pair already
applied) throws `ExpressError(..., 409)`; otherwise the application row
is inserted and the `RETURNING username, job_id` projection returned. -/
def apply (un : String) (jid : Nat) (db : DB) : Except DomainError Obj × DB :=
  let rows := applyQueryRows db un jid
  if !rows.any (fun r => r.username == some un) then
    (.error (.notFound ("user: " ++ un ++ " not found")), db)
  else if !rows.any (fun r => r.id == some jid) then
    (.error (.notFound ("job ID: " ++ toString jid ++ " not found")), db)
  else if rows.any (fun r => r.username == some un && r.id == some jid) then
    (.error (.express (un ++ " has already applied to job:" ++ toString jid) 409), db)
  else
    (.ok [("username", .str un), ("jobId", .num jid)],
     { db with apps := db.apps ++ [⟨un, jid⟩] })

end User

/-- Spec-side model of `apply` (section 4.5): look the user up in the
users table and the job up in the jobs table directly, distinguish the
two not-found cases in the error message, report an existing pair as a
conflict distinct from not-found, and insert only when all three checks
pass. -/
def applySpecModel (un : String) (jid : Nat) (db : DB) : Except DomainError Obj × DB :=
  if !db.users.any (fun u => u.username == un) then
    (.error (.notFound ("user: " ++ un ++ " not found")), db)
  else if !db.jobs.any (fun j => j.id == jid) then
    (.error (.notFound ("job ID: " ++ toString jid ++ " not found")), db)
  else if db.apps.any (fun a => a.username == un && a.jobId == jid) then
    (.error (.express (un ++ " has already applied to job:" ++ toString jid) 409), db)
  else
    (.ok [("username", .str un), ("jobId", .num jid)],
     { db with apps := db.apps ++ [⟨un, jid⟩] })


/-! ### Fixtures for concrete evaluations -/

def fixU1 : UserRow := ⟨"u1", "bcrypt13$p1", "U1F", "U1L", "u1@mail.com", false⟩

def fixU2 : UserRow := ⟨"u2", "bcrypt13$p2", "U2F", "U2L", "u2@mail.com", true⟩

def fixJ1 : JobRow := ⟨1, "j11", 11, 0, "c1"⟩

def fixJ2 : JobRow := ⟨2, "j21", 21, 0, "c1"⟩

def dbDup : DB := ⟨[fixU1, fixU2], [fixJ1, fixJ2], [⟨"u1", 1⟩, ⟨"u1", 2⟩]⟩

def dbApp : DB := ⟨[fixU1], [fixJ1], []⟩

def fixU3reg : UserRow := ⟨"u3", bcryptHash "p3", "F3", "L3", "e3@m", false⟩

def fixU1upd : UserRow := ⟨"u1", "bcrypt13$p1", "U1F", "U1L", "x@y", false⟩


/-! ### Theorems -/

theorem enumFrom_map_clause (g : String → String) :
    ∀ (n : Nat) (data : List (String × SqlVal)),
      (data.enumFrom n).map (fun p => g p.2.1 ++ " = $" ++ toString (p.1 + 1)) =
        setClausesFrom (n + 1) (data.map (fun p => g p.1))
  | _, [] => rfl
  | n, _ :: rest => by
      simp only [List.enumFrom, List.map, setClausesFrom, List.cons.injEq, true_and]
      exact enumFrom_map_clause g (n + 1) rest

theorem updateClauses_eq_setClausesFrom (data : List (String × SqlVal))
    (m : List (String × String)) :
    updateClauses data m = setClausesFrom 1 (data.map (fun p => colFor m p.1)) := by
  simpa [updateClauses, List.enum] using enumFrom_map_clause (colFor m) 0 data

theorem setClausesFrom_length : ∀ (i : Nat) (l : List String),
      (setClausesFrom i l).length = l.length
  | _, [] => rfl
  | i, _ :: rest => by simp [setClausesFrom, setClausesFrom_length (i + 1) rest]

theorem updateClauses_length (data : List (String × SqlVal)) (m : List (String × String)) :
    (updateClauses data m).length = data.length := by
  simp [updateClauses_eq_setClausesFrom, setClausesFrom_length]

/-- C5: for every filter bag, `Job.find` builds exactly one clause per
present (supplied and truthy, per C10) filter, joined with logical AND;
`hasEquity` contributes the clause `equity > 0` exactly when it is true
and binds no positional parameter; the positional parameters of the
remaining clauses are contiguous starting at `$1`, and the value list
lists the bound values in clause order. -/
theorem jobFind_clause_structure (f : FilterBag) :
    (Job.findBuild f).1 = renderFilters 1 (presentFilters f) ∧
    (Job.findBuild f).2 = (presentFilters f).filterMap FilterClause.value ∧
    (Job.findBuild f).1.length = (presentFilters f).length ∧
    (("equity > 0" ∈ (Job.findBuild f).1) ↔ f.hasEquity = true) ∧
    Job.findWhere f = String.intercalate " and " (renderFilters 1 (presentFilters f)) := by
  cases ht : jsTruthyS f.title <;> cases he : f.hasEquity <;>
    cases hm : jsTruthyN f.minSalary <;> cases hc : jsTruthyS f.companyHandle <;>
      simp [Job.findBuild, Job.findWhere, presentFilters, renderFilters, FilterClause.renderAt,
        FilterClause.value, ht, he, hm, hc] <;> decide

/-- C1: for the empty filter bag the composer pushes no clause at all, so
the query text ends in `where ` with an empty predicate — a SQL syntax
error the database rejects — and `Job.find` therefore fails instead of
returning all rows of the jobs relation. -/
theorem jobFind_empty_bag_syntax_error :
    (Job.findBuild ⟨none, none, false, none⟩).1 = [] ∧
    Job.findWhere ⟨none, none, false, none⟩ = "" ∧
    (∀ db : DB, Job.find ⟨none, none, false, none⟩ db
        = .error (.sqlSyntax "syntax error at end of input")) ∧
    (∀ db : DB, Job.find ⟨none, none, false, none⟩ db ≠ .ok db.jobs) := by
  refine ⟨rfl, rfl, fun db => rfl, fun db => ?_⟩
  simp [Job.find, Job.findBuild, jsTruthyS, jsTruthyN]

/-- C10: a supplied filter whose value is falsy (empty-string `title`,
zero `minSalary`, empty-string `companyHandle`) contributes no predicate
clause and no parameter; in particular `find` with `minSalary` zero
behaves exactly as `find` with no `minSalary` filter, with or without
other filters present. -/
theorem jobFind_falsy_filters_ignored :
    Job.findBuild ⟨some "", none, false, none⟩ = ([], []) ∧
    Job.findBuild ⟨none, some 0, false, none⟩ = ([], []) ∧
    Job.findBuild ⟨none, none, false, some ""⟩ = ([], []) ∧
    (∀ db : DB, Job.find ⟨none, some 0, false, none⟩ db
        = Job.find ⟨none, none, false, none⟩ db) ∧
    (∀ db : DB, Job.find ⟨some "j", some 0, false, none⟩ db
        = Job.find ⟨some "j", none, false, none⟩ db) := by
  refine ⟨rfl, rfl, rfl, fun db => rfl, fun db => rfl⟩

theorem mem_join2row_none {users : List UserRow} {jr : JRow1} (ha : jr.a = none) :
    join2row users jr = [⟨none, jr.j.map JobRow.id⟩] := by
  simp [join2row, ha]

theorem join2_username_sound {rows : List JRow1} {users : List UserRow} {r : ApplyRow}
    (hr : r ∈ join2 rows users) {x : String} (hx : r.username = some x) :
    ∃ u ∈ users, u.username = x := by
  rcases List.mem_append.mp hr with h | h
  · rcases List.mem_flatMap.mp h with ⟨jr, hjr, hmem⟩
    cases ha : jr.a with
    | none =>
        rw [mem_join2row_none ha] at hmem
        simp at hmem
        rw [hmem] at hx
        simp at hx
    | some a =>
        simp only [join2row, ha] at hmem
        by_cases hus : (users.filter (fun u => u.username == a.username)).isEmpty
        · rw [if_pos hus] at hmem
          simp at hmem
          rw [hmem] at hx
          simp at hx
        · rw [if_neg hus] at hmem
          rcases List.mem_map.mp hmem with ⟨u, hu, hru⟩
          rcases List.mem_filter.mp hu with ⟨hu1, _⟩
          refine ⟨u, hu1, ?_⟩
          rw [← hru] at hx
          simp at hx
          exact hx
  · rcases List.mem_map.mp h with ⟨u, hu, hru⟩
    rcases List.mem_filter.mp hu with ⟨hu1, _⟩
    refine ⟨u, hu1, ?_⟩
    rw [← hru] at hx
    simp at hx
    exact hx

theorem join2_username_complete {rows : List JRow1} {users : List UserRow} {u : UserRow}
    (hu : u ∈ users) :
    ∃ r ∈ join2 rows users, r.username = some u.username := by
  by_cases hmatch : rows.any (fun rr => jrowMatchesUser rr u)
  · rcases List.any_eq_true.mp hmatch with ⟨jr, hjr, hm⟩
    cases ha : jr.a with
    | none => simp [jrowMatchesUser, ha] at hm
    | some a =>
        simp only [jrowMatchesUser, ha] at hm
        have haeq : a.username = u.username := by simpa using hm
        have humem : u ∈ users.filter (fun v => v.username == a.username) := by
          refine List.mem_filter.mpr ⟨hu, ?_⟩
          simp [haeq]
        refine ⟨⟨some u.username, jr.j.map JobRow.id⟩, ?_, rfl⟩
        refine List.mem_append.mpr (Or.inl ?_)
        refine List.mem_flatMap.mpr ⟨jr, hjr, ?_⟩
        simp only [join2row, ha]
        rw [if_neg (by simp [List.isEmpty_iff]; exact ⟨u, hu, haeq.symm⟩)]
        exact List.mem_map.mpr ⟨u, humem, rfl⟩
  · refine ⟨⟨some u.username, none⟩, ?_, rfl⟩
    refine List.mem_append.mpr (Or.inr ?_)
    refine List.mem_map.mpr ⟨u, ?_, rfl⟩
    refine List.mem_filter.mpr ⟨hu, ?_⟩
    simpa using hmatch

theorem join2_id_shape {rows : List JRow1} {users : List UserRow} {r : ApplyRow}
    (hr : r ∈ join2 rows users) {y : Nat} (hy : r.id = some y) :
    ∃ jr ∈ rows, jr.j.map JobRow.id = some y := by
  rcases List.mem_append.mp hr with h | h
  · rcases List.mem_flatMap.mp h with ⟨jr, hjr, hmem⟩
    refine ⟨jr, hjr, ?_⟩
    cases ha : jr.a with
    | none =>
        rw [mem_join2row_none ha] at hmem
        simp at hmem; rw [hmem] at hy; simpa using hy
    | some a =>
        simp only [join2row, ha] at hmem
        by_cases hus : (users.filter (fun u => u.username == a.username)).isEmpty
        · rw [if_pos hus] at hmem
          simp at hmem; rw [hmem] at hy; simpa using hy
        · rw [if_neg hus] at hmem
          rcases List.mem_map.mp hmem with ⟨u, _, hru⟩
          rw [← hru] at hy; simpa using hy
  · rcases List.mem_map.mp h with ⟨u, _, hru⟩
    rw [← hru] at hy; simp at hy

theorem join1_j_sound {apps : List AppRow} {jobs : List JobRow} {jr : JRow1}
    (hjr : jr ∈ join1 apps jobs) {j : JobRow} (hj : jr.j = some j) : j ∈ jobs := by
  rcases List.mem_append.mp hjr with h | h
  · rcases List.mem_flatMap.mp h with ⟨a, _, hmem⟩
    simp only [join1row] at hmem
    by_cases hjs : (jobs.filter (fun jj => jj.id == a.jobId)).isEmpty
    · rw [if_pos hjs] at hmem
      simp at hmem; rw [hmem] at hj; simp at hj
    · rw [if_neg hjs] at hmem
      rcases List.mem_map.mp hmem with ⟨jj, hjj, hrj⟩
      rw [← hrj] at hj
      simp at hj
      rw [← hj]
      exact (List.mem_filter.mp hjj).1
  · rcases List.mem_map.mp h with ⟨jj, hjj, hrj⟩
    rw [← hrj] at hj
    simp at hj
    rw [← hj]
    exact (List.mem_filter.mp hjj).1

theorem join1_j_complete {apps : List AppRow} {jobs : List JobRow} {j : JobRow}
    (hj : j ∈ jobs) : ∃ jr ∈ join1 apps jobs, jr.j = some j := by
  by_cases hmatch : apps.any (fun a => a.jobId == j.id)
  · rcases List.any_eq_true.mp hmatch with ⟨a, ha, hm⟩
    have hid : a.jobId = j.id := by simpa using hm
    have hjmem : j ∈ jobs.filter (fun jj => jj.id == a.jobId) := by
      refine List.mem_filter.mpr ⟨hj, ?_⟩
      simp [hid]
    refine ⟨⟨some a, some j⟩, ?_, rfl⟩
    refine List.mem_append.mpr (Or.inl ?_)
    refine List.mem_flatMap.mpr ⟨a, ha, ?_⟩
    simp only [join1row]
    rw [if_neg (by simp [List.isEmpty_iff]; exact ⟨j, hj, hid.symm⟩)]
    exact List.mem_map.mpr ⟨j, hjmem, rfl⟩
  · refine ⟨⟨none, some j⟩, ?_, rfl⟩
    refine List.mem_append.mpr (Or.inr ?_)
    refine List.mem_map.mpr ⟨j, ?_, rfl⟩
    refine List.mem_filter.mpr ⟨hj, ?_⟩
    simpa using hmatch

theorem join2_of_jrow {rows : List JRow1} {users : List UserRow} {jr : JRow1}
    (hjr : jr ∈ rows) : ∃ r ∈ join2 rows users, r.id = jr.j.map JobRow.id := by
  cases ha : jr.a with
  | none =>
      refine ⟨⟨none, jr.j.map JobRow.id⟩, ?_, rfl⟩
      refine List.mem_append.mpr (Or.inl (List.mem_flatMap.mpr ⟨jr, hjr, ?_⟩))
      rw [mem_join2row_none ha]
      simp
  | some a =>
      by_cases hus : (users.filter (fun u => u.username == a.username)).isEmpty
      · refine ⟨⟨none, jr.j.map JobRow.id⟩, ?_, rfl⟩
        refine List.mem_append.mpr (Or.inl (List.mem_flatMap.mpr ⟨jr, hjr, ?_⟩))
        simp only [join2row, ha]
        rw [if_pos hus]
        simp
      · have hne : users.filter (fun u => u.username == a.username) ≠ [] := by
          simpa [List.isEmpty_iff] using hus
        rcases List.exists_mem_of_ne_nil _ hne with ⟨u, hu⟩
        refine ⟨⟨some u.username, jr.j.map JobRow.id⟩, ?_, rfl⟩
        refine List.mem_append.mpr (Or.inl (List.mem_flatMap.mpr ⟨jr, hjr, ?_⟩))
        simp only [join2row, ha]
        rw [if_neg hus]
        exact List.mem_map.mpr ⟨u, hu, rfl⟩

theorem join_pair_sound {apps : List AppRow} {jobs : List JobRow} {users : List UserRow}
    {r : ApplyRow} (hr : r ∈ join2 (join1 apps jobs) users)
    {x : String} {y : Nat} (hx : r.username = some x) (hy : r.id = some y) :
    ∃ a ∈ apps, a.username = x ∧ a.jobId = y := by
  rcases List.mem_append.mp hr with h | h
  · rcases List.mem_flatMap.mp h with ⟨jr, hjr, hmem⟩
    cases ha : jr.a with
    | none =>
        rw [mem_join2row_none ha] at hmem
        simp at hmem; rw [hmem] at hx; simp at hx
    | some a =>
        simp only [join2row, ha] at hmem
        by_cases hus : (users.filter (fun u => u.username == a.username)).isEmpty
        · rw [if_pos hus] at hmem
          simp at hmem; rw [hmem] at hx; simp at hx
        · rw [if_neg hus] at hmem
          rcases List.mem_map.mp hmem with ⟨u, hu, hru⟩
          have husername : u.username = x := by rw [← hru] at hx; simpa using hx
          have hfil := (List.mem_filter.mp hu).2
          have hax : a.username = x := by
            have : u.username = a.username := by simpa using hfil
            rw [← this, husername]
          have hjy : jr.j.map JobRow.id = some y := by rw [← hru] at hy; simpa using hy
          rcases Option.map_eq_some'.mp hjy with ⟨j, hjeq, hjid⟩
          rcases List.mem_append.mp hjr with h1 | h1
          · rcases List.mem_flatMap.mp h1 with ⟨a2, ha2, hmem1⟩
            simp only [join1row] at hmem1
            by_cases hjs : (jobs.filter (fun jj => jj.id == a2.jobId)).isEmpty
            · rw [if_pos hjs] at hmem1
              simp at hmem1
              rw [hmem1] at hjeq ha
              simp at hjeq
            · rw [if_neg hjs] at hmem1
              rcases List.mem_map.mp hmem1 with ⟨jj, hjjmem, hjr1⟩
              have haa : a2 = a := by rw [← hjr1] at ha; simpa using ha
              have hjj2 : jj = j := by rw [← hjr1] at hjeq; simpa using hjeq
              have hjja : jj.id = a2.jobId := by simpa using (List.mem_filter.mp hjjmem).2
              refine ⟨a, by rw [← haa]; exact ha2, hax, ?_⟩
              rw [← haa, ← hjja, hjj2, hjid]
          · rcases List.mem_map.mp h1 with ⟨jj, _, hjr1⟩
            rw [← hjr1] at ha
            simp at ha
  · rcases List.mem_map.mp h with ⟨u, _, hru⟩
    rw [← hru] at hy
    simp at hy

theorem join_pair_complete {apps : List AppRow} {jobs : List JobRow} {users : List UserRow}
    {a : AppRow} (ha : a ∈ apps) {u : UserRow} (hu : u ∈ users)
    (hau : u.username = a.username) {j : JobRow} (hj : j ∈ jobs) (haj : j.id = a.jobId) :
    (⟨some u.username, some j.id⟩ : ApplyRow) ∈ join2 (join1 apps jobs) users := by
  have hjmem : j ∈ jobs.filter (fun jj => jj.id == a.jobId) :=
    List.mem_filter.mpr ⟨hj, by simp [haj]⟩
  have hjr : (⟨some a, some j⟩ : JRow1) ∈ join1 apps jobs := by
    refine List.mem_append.mpr (Or.inl (List.mem_flatMap.mpr ⟨a, ha, ?_⟩))
    simp only [join1row]
    rw [if_neg (by simp [List.isEmpty_iff]; exact ⟨j, hj, haj⟩)]
    exact List.mem_map.mpr ⟨j, hjmem, rfl⟩
  have humem : u ∈ users.filter (fun v => v.username == a.username) :=
    List.mem_filter.mpr ⟨hu, by simp [hau]⟩
  refine List.mem_append.mpr (Or.inl (List.mem_flatMap.mpr ⟨⟨some a, some j⟩, hjr, ?_⟩))
  simp only [join2row]
  rw [if_neg (by simp [List.isEmpty_iff]; exact ⟨u, hu, hau⟩)]
  exact List.mem_map.mpr ⟨u, humem, rfl⟩

theorem bool_eq_of_iff {a b : Bool} (h : a = true ↔ b = true) : a = b := by
  cases a <;> cases b <;> simp_all

theorem applyRows_user_check (db : DB) (un : String) (jid : Nat) :
    (applyQueryRows db un jid).any (fun r => r.username == some un)
      = db.users.any (fun u => u.username == un) := by
  apply bool_eq_of_iff
  simp only [List.any_eq_true]
  constructor
  · rintro ⟨r, hr, hub⟩
    have hr2 : r ∈ join2 (join1 db.apps db.jobs) db.users := (List.mem_filter.mp hr).1
    have hx : r.username = some un := by simpa using hub
    rcases join2_username_sound hr2 hx with ⟨u, hu, hux⟩
    exact ⟨u, hu, by simp [hux]⟩
  · rintro ⟨u, hu, hub⟩
    have hux : u.username = un := by simpa using hub
    rcases @join2_username_complete (join1 db.apps db.jobs) db.users u hu with ⟨r, hr, hx⟩
    refine ⟨r, List.mem_filter.mpr ⟨hr, ?_⟩, by simp [hx, hux]⟩
    simp [hx, hux]

theorem applyRows_job_check (db : DB) (un : String) (jid : Nat) :
    (applyQueryRows db un jid).any (fun r => r.id == some jid)
      = db.jobs.any (fun j => j.id == jid) := by
  apply bool_eq_of_iff
  simp only [List.any_eq_true]
  constructor
  · rintro ⟨r, hr, hb⟩
    have hr2 : r ∈ join2 (join1 db.apps db.jobs) db.users := (List.mem_filter.mp hr).1
    have hy : r.id = some jid := by simpa using hb
    rcases join2_id_shape hr2 hy with ⟨jr, hjr, hshape⟩
    rcases Option.map_eq_some'.mp hshape with ⟨j, hjeq, hjid⟩
    exact ⟨j, join1_j_sound hjr hjeq, by simp [hjid]⟩
  · rintro ⟨j, hj, hb⟩
    have hjid : j.id = jid := by simpa using hb
    rcases @join1_j_complete db.apps db.jobs j hj with ⟨jr, hjr, hjeq⟩
    rcases @join2_of_jrow (join1 db.apps db.jobs) db.users jr hjr with ⟨r, hr, hid⟩
    have hrid : r.id = some jid := by rw [hid, hjeq]; simp [hjid]
    refine ⟨r, List.mem_filter.mpr ⟨hr, ?_⟩, by simp [hrid]⟩
    simp [hrid]

theorem applyRows_pair_check (db : DB) (un : String) (jid : Nat)
    (hu : db.users.any (fun u => u.username == un) = true)
    (hj : db.jobs.any (fun j => j.id == jid) = true) :
    (applyQueryRows db un jid).any (fun r => r.username == some un && r.id == some jid)
      = db.apps.any (fun a => a.username == un && a.jobId == jid) := by
  apply bool_eq_of_iff
  simp only [List.any_eq_true]
  constructor
  · rintro ⟨r, hr, hb⟩
    have hr2 : r ∈ join2 (join1 db.apps db.jobs) db.users := (List.mem_filter.mp hr).1
    have hx : r.username = some un := by
      have := (Bool.and_eq_true _ _).mp hb |>.1
      simpa using this
    have hy : r.id = some jid := by
      have := (Bool.and_eq_true _ _).mp hb |>.2
      simpa using this
    rcases join_pair_sound hr2 hx hy with ⟨a, ha, hax, hay⟩
    exact ⟨a, ha, by simp [hax, hay]⟩
  · rintro ⟨a, ha, hb⟩
    have hax : a.username = un := by
      have := (Bool.and_eq_true _ _).mp hb |>.1
      simpa using this
    have hay : a.jobId = jid := by
      have := (Bool.and_eq_true _ _).mp hb |>.2
      simpa using this
    rcases List.any_eq_true.mp hu with ⟨u, humem, hub⟩
    have hun : u.username = un := by simpa using hub
    rcases List.any_eq_true.mp hj with ⟨j, hjmem, hjb⟩
    have hjn : j.id = jid := by simpa using hjb
    have hpair := join_pair_complete ha humem (by rw [hun, hax]) hjmem (by rw [hjn, hay])
    refine ⟨⟨some u.username, some j.id⟩, List.mem_filter.mpr ⟨hpair, ?_⟩, ?_⟩
    · simp [hun, hjn]
    · simp [hun, hjn]

/-- C4: `User.apply` refines the direct spec-side model: it fails with a
`NotFoundError` naming the user when the username is absent from the
users table, with a `NotFoundError` naming the job when the user exists
but the job id is absent from the jobs table, and with a 409
`ExpressError` (a conflict, a different constructor than `notFound`) when
both exist and the pair is already in the applications table; only when
all three checks pass is the application row inserted. -/
theorem user_apply_refines_spec (un : String) (jid : Nat) (db : DB) :
    User.apply un jid db = applySpecModel un jid db := by
  simp only [User.apply, applySpecModel]
  rw [applyRows_user_check, applyRows_job_check]
  cases hu : db.users.any (fun u => u.username == un) with
  | false => simp
  | true =>
      cases hj : db.jobs.any (fun j => j.id == jid) with
      | false => simp
      | true => rw [applyRows_pair_check db un jid hu hj]

/-- C6: for every non-empty field mapping the clause builder (as used by
`User.update` and `Job.update`) succeeds with one assignment clause per
key in iteration order — each clause using the physical column from the
rename mapping when present and positional parameters contiguous from
`$1` — and a value list of the same length in the same order; for the
empty mapping it fails with the "no data" validation error
(`BadRequestError`) instead of producing a clause. -/
theorem sqlForPartialUpdate_contract (data : List (String × SqlVal))
    (m : List (String × String)) (h : data ≠ []) :
    sqlForPartialUpdate data m
        = .ok (String.intercalate ", " (updateClauses data m), data.map Prod.snd) ∧
    updateClauses data m = setClausesFrom 1 (data.map (fun p => colFor m p.1)) ∧
    (updateClauses data m).length = data.length ∧
    (data.map Prod.snd).length = data.length ∧
    sqlForPartialUpdate [] m = .error (.badRequest "No data") := by
  refine ⟨?_, updateClauses_eq_setClausesFrom data m, updateClauses_length data m,
    by simp, rfl⟩
  have hie : data.isEmpty = false := by simpa [List.isEmpty_iff] using h
  simp [sqlForPartialUpdate, hie]

theorem sqlForPartialUpdate_contract_witness :
    sqlForPartialUpdate [("firstName", SqlVal.str "N"), ("email", SqlVal.str "n@e")] userRename
      = .ok ("first_name = $1, email = $2", [SqlVal.str "N", SqlVal.str "n@e"]) := by
  have h := sqlForPartialUpdate_contract
      [("firstName", SqlVal.str "N"), ("email", SqlVal.str "n@e")] userRename (by decide)
  rw [h.1]
  rfl

theorem hashPasswordField_ne_nil {data : List (String × SqlVal)} (h : data ≠ []) :
    hashPasswordField data ≠ [] := by
  unfold hashPasswordField
  cases hl : data.lookup "password" with
  | none => simpa using h
  | some v =>
      cases v with
      | str s =>
          by_cases hs : s == ""
          · simpa [hs] using h
          · simp only [hs, Bool.false_eq_true, if_false]
            simpa [List.map_eq_nil_iff] using h
      | num n => simpa using h
      | dec q => simpa using h
      | bool b => simpa using h
      | null => simpa using h

theorem map_update_id {α : Type} {l : List α} {g : α → α} {p : α → Bool}
    (h : ∀ r ∈ l, p r = false) :
    l.map (fun r => if p r then g r else r) = l := by
  induction l with
  | nil => rfl
  | cons a t ih =>
      simp only [List.map_cons, h a (by simp), Bool.false_eq_true, if_false]
      rw [ih (fun r hr => h r (by simp [hr]))]

/-- C8: for every nonexistent key and non-empty payload, `User.update`
and `Job.update` fail with a `NotFoundError` and return the store
unchanged — the zero rows matching the `WHERE` key mean the `UPDATE`
modifies no row of any table. -/
theorem update_missing_key (db : DB) (un : String) (jid : Nat)
    (dU dJ : List (String × SqlVal))
    (hU : ∀ r ∈ db.users, r.username ≠ un)
    (hJ : ∀ r ∈ db.jobs, r.id ≠ jid)
    (hdU : dU ≠ []) (hdJ : dJ ≠ []) :
    User.update un dU db = (.error (.notFound ("No user: " ++ un)), db) ∧
    Job.update jid dJ db = (.error (.notFound ("No job: " ++ toString jid)), db) := by
  constructor
  · have hne := hashPasswordField_ne_nil hdU
    have hie : (hashPasswordField dU).isEmpty = false := by
      simpa [List.isEmpty_iff] using hne
    have hfil : db.users.filter (fun r => r.username == un) = [] := by
      rw [List.filter_eq_nil_iff]
      intro r hr
      simpa using hU r hr
    have hmap : db.users.map (fun r =>
        if r.username == un then
          applyUserAssigns r ((hashPasswordField dU).map (fun p => (colFor userRename p.1, p.2)))
        else r) = db.users :=
      map_update_id (fun r hr => by simpa using hU r hr)
    simp only [User.update, sqlForPartialUpdate, hie, Bool.false_eq_true, if_false,
      hfil, hmap]
  · have hie : dJ.isEmpty = false := by simpa [List.isEmpty_iff] using hdJ
    have hfil : db.jobs.filter (fun r => r.id == jid) = [] := by
      rw [List.filter_eq_nil_iff]
      intro r hr
      simpa using hJ r hr
    have hmap : db.jobs.map (fun r =>
        if r.id == jid then
          applyJobAssigns r (dJ.map (fun p => (colFor jobRename p.1, p.2)))
        else r) = db.jobs :=
      map_update_id (fun r hr => by simpa using hJ r hr)
    simp only [Job.update, sqlForPartialUpdate, hie, Bool.false_eq_true, if_false,
      hfil, hmap]

/-- C2 (failing evaluation): on a store with user `u1` holding two
applications and user `u2` holding none, `User.findAll` returns `u1`'s
record twice — the accumulator guard `rows[0] != row.username` compares
an object against a string and therefore never merges rows — and not one
returned record carries a `jobs` key (the `jobs` property is commented
out in the source), contradicting the claimed one-record-per-user
grouping with a job-identifier list. -/
theorem findAll_duplicates_user_and_lacks_jobs :
    User.findAll dbDup = .ok [userObj5 fixU1, userObj5 fixU1, userObj5 fixU2] ∧
    (([userObj5 fixU1, userObj5 fixU1, userObj5 fixU2] : List Obj).filter
        (fun o => o.lookup "username" == some (SqlVal.str "u1"))).length = 2 ∧
    (∀ o ∈ ([userObj5 fixU1, userObj5 fixU1, userObj5 fixU2] : List Obj),
        ¬ "jobs" ∈ o.keys) := by
  refine ⟨rfl, by decide, by decide⟩

/-- C3 (failing evaluation): after a successful `User.apply(u1, 1)` the
subsequent `User.get(u1)` succeeds but returns only the five scalar
fields — no `jobs` key at all (the `jobs` list is commented out in the
source), so nothing contains the applied job id; the not-found half of
the claim does hold (`get` of an absent username fails with
`NotFoundError`). -/
theorem apply_then_get_lacks_jobs :
    (User.apply "u1" 1 dbApp).1
        = .ok [("username", SqlVal.str "u1"), ("jobId", SqlVal.num 1)] ∧
    (User.apply "u1" 1 dbApp).2 = { dbApp with apps := [⟨"u1", 1⟩] } ∧
    User.get "u1" ((User.apply "u1" 1 dbApp).2) = .ok (userObj5 fixU1) ∧
    ¬ "jobs" ∈ (userObj5 fixU1).keys ∧
    User.get "ghost" dbApp = .error (.notFound "No user: ghost") := by
  refine ⟨rfl, rfl, rfl, by decide, rfl⟩

/-- C7: `User.authenticate` fails with the one identical
`UnauthorizedError "Invalid username/password"` both when no users row
matches the username and when a row matches but `bcrypt.compare`
rejects; every failure of `authenticate` is an `unauthorized` error
(never `notFound`); and a success returns the fetched row with its
`password` property deleted. -/
theorem authenticate_uniform_unauthorized (db : DB) (un pw : String) :
    (db.users.filter (fun r => r.username == un) = [] →
        User.authenticate un pw db = .error (.unauthorized "Invalid username/password")) ∧
    (∀ r rest, db.users.filter (fun v => v.username == un) = r :: rest →
        bcryptCompare pw r.password = false →
        User.authenticate un pw db = .error (.unauthorized "Invalid username/password")) ∧
    (∀ e, User.authenticate un pw db = .error e →
        ∃ m, e = DomainError.unauthorized m) ∧
    (∀ o, User.authenticate un pw db = .ok o →
        ¬ "password" ∈ o.keys ∧
        ∃ r, r ∈ db.users ∧ r.username = un ∧ o = objDelete "password" (userRowObj r)) := by
  refine ⟨?_, ?_, ?_, ?_⟩
  · intro hfil
    unfold User.authenticate
    rw [hfil]
  · intro r rest hfil hcmp
    unfold User.authenticate
    rw [hfil]
    simp [hcmp]
  · intro e he
    unfold User.authenticate at he
    split at he
    · injection he with h
      exact ⟨_, h.symm⟩
    · split at he
      · exact absurd he (by simp)
      · injection he with h
        exact ⟨_, h.symm⟩
  · intro o ho
    unfold User.authenticate at ho
    split at ho
    · exact absurd ho (by simp)
    · rename_i r rest hfil
      split at ho
      · injection ho with h
        refine ⟨?_, r, ?_, ?_, h.symm⟩
        · rw [← h]
          intro hmem
          rcases List.mem_map.mp hmem with ⟨p, hp, hpk⟩
          have hne := (List.mem_filter.mp hp).2
          simp [hpk] at hne
        · have : r ∈ db.users.filter (fun v => v.username == un) := by
            rw [hfil]; simp
          exact (List.mem_filter.mp this).1
        · have : r ∈ db.users.filter (fun v => v.username == un) := by
            rw [hfil]; simp
          simpa using (List.mem_filter.mp this).2
      · exact absurd ho (by simp)

theorem authenticate_uniform_unauthorized_witness :
    User.authenticate "ghost" "p1" dbApp
        = .error (.unauthorized "Invalid username/password") ∧
    User.authenticate "u1" "wrong" dbApp
        = .error (.unauthorized "Invalid username/password") :=
  ⟨(authenticate_uniform_unauthorized dbApp "ghost" "p1").1 (by decide),
   (authenticate_uniform_unauthorized dbApp "u1" "wrong").2.1 fixU1 [] (by decide) (by decide)⟩

theorem not_mem_keys_userObj5 (r : UserRow) : ¬ "password" ∈ (userObj5 r).keys := by
  simp [userObj5, Obj.keys]

theorem not_mem_keys_objDelete (k : String) (o : Obj) : ¬ k ∈ (objDelete k o).keys := by
  intro hmem
  rcases List.mem_map.mp hmem with ⟨p, hp, hpk⟩
  have hne := (List.mem_filter.mp hp).2
  simp [hpk] at hne

theorem authenticate_ok_shape {db : DB} {un pw : String} {o : Obj}
    (ho : User.authenticate un pw db = .ok o) :
    ∃ r, r ∈ db.users ∧ r.username = un ∧ o = objDelete "password" (userRowObj r) := by
  unfold User.authenticate at ho
  split at ho
  · exact absurd ho (by simp)
  · rename_i r rest hfil
    split at ho
    · injection ho with h
      refine ⟨r, ?_, ?_, h.symm⟩
      · have : r ∈ db.users.filter (fun v => v.username == un) := by
          rw [hfil]; simp
        exact (List.mem_filter.mp this).1
      · have : r ∈ db.users.filter (fun v => v.username == un) := by
          rw [hfil]; simp
        simpa using (List.mem_filter.mp this).2
    · exact absurd ho (by simp)

theorem findAll_foldr_shape :
    ∀ (rows : List FARow) (acc l : List Obj),
      rows.foldr User.findAllStep (.ok acc) = .ok l →
      ∀ o ∈ l, (∃ r : FARow, o = userObj5 r.user) ∨ o ∈ acc := by
  intro rows
  induction rows with
  | nil =>
      intro acc l h o ho
      simp only [List.foldr_nil] at h
      injection h with h2
      right
      rw [h2]
      exact ho
  | cons row rest ih =>
      intro acc l h o ho
      simp only [List.foldr_cons] at h
      cases hm : rest.foldr User.findAllStep (.ok acc) with
      | error e => rw [hm] at h; simp [User.findAllStep] at h
      | ok acc2 =>
          rw [hm] at h
          cases acc2 with
          | nil =>
              simp only [User.findAllStep] at h
              injection h with h2
              rw [← h2] at ho
              simp at ho
              exact Or.inl ⟨row, ho⟩
          | cons o2 rest2 =>
              simp only [User.findAllStep] at h
              split at h
              · exact absurd h (by simp)
              · injection h with h2
                rw [← h2] at ho
                rcases List.mem_cons.mp ho with h3 | h3
                · exact Or.inl ⟨row, h3⟩
                · exact ih acc (o2 :: rest2) hm o h3

/-- C9: the password is write-only — whenever `authenticate`,
`register`, `findAll`, `get` or `update` succeeds, the returned user
object (respectively every member of the returned list) has no
`password` key. -/
theorem password_write_only (db : DB) (un pw : String) (f : User.RegFields)
    (data : List (String × SqlVal)) (o : Obj) (l : List Obj) :
    (User.authenticate un pw db = .ok o → ¬ "password" ∈ o.keys) ∧
    ((User.register f db).1 = .ok o → ¬ "password" ∈ o.keys) ∧
    (User.findAll db = .ok l → o ∈ l → ¬ "password" ∈ o.keys) ∧
    (User.get un db = .ok o → ¬ "password" ∈ o.keys) ∧
    ((User.update un data db).1 = .ok o → ¬ "password" ∈ o.keys) := by
  refine ⟨?_, ?_, ?_, ?_, ?_⟩
  · intro h
    rcases authenticate_ok_shape h with ⟨r, _, _, ho⟩
    rw [ho]
    exact not_mem_keys_objDelete _ _
  · intro h
    simp only [User.register] at h
    split at h
    · exact absurd h (by simp)
    · injection h with h2
      rw [← h2]
      exact not_mem_keys_userObj5 _
  · intro h hmem
    rcases findAll_foldr_shape _ [] l h o hmem with ⟨r, ho⟩ | hfalse
    · rw [ho]
      exact not_mem_keys_userObj5 _
    · exact absurd hfalse (by simp)
  · intro h
    unfold User.get at h
    split at h
    · exact absurd h (by simp)
    · injection h with h2
      rw [← h2]
      exact not_mem_keys_userObj5 _
  · intro h
    simp only [User.update] at h
    split at h
    · exact absurd h (by simp)
    · split at h
      · exact absurd h (by simp)
      · injection h with h2
        rw [← h2]
        exact not_mem_keys_objDelete _ _

theorem password_write_only_witness :
    (¬ "password" ∈ (userObj5 fixU1).keys) ∧
    (¬ "password" ∈ (userObj5 fixU3reg).keys) ∧
    (¬ "password" ∈ (userObj5 fixU1).keys ∧ ¬ "password" ∈ (userObj5 fixU1).keys) ∧
    (¬ "password" ∈ (userObj5 fixU1upd).keys) :=
  ⟨(password_write_only dbApp "u1" "p1" ⟨"u3", "p3", "F3", "L3", "e3@m", false⟩ []
      (userObj5 fixU1) [userObj5 fixU1]).1 rfl,
   (password_write_only dbApp "u1" "p1" ⟨"u3", "p3", "F3", "L3", "e3@m", false⟩ []
      (userObj5 fixU3reg) []).2.1 rfl,
   ⟨(password_write_only dbApp "u1" "p1" ⟨"u3", "p3", "F3", "L3", "e3@m", false⟩ []
      (userObj5 fixU1) [userObj5 fixU1]).2.2.1 rfl (by simp),
    (password_write_only dbApp "u1" "p1" ⟨"u3", "p3", "F3", "L3", "e3@m", false⟩ []
      (userObj5 fixU1) []).2.2.2.1 rfl⟩,
   (password_write_only dbApp "u1" "p1" ⟨"u3", "p3", "F3", "L3", "e3@m", false⟩
      [("email", SqlVal.str "x@y")] (userObj5 fixU1upd) []).2.2.2.2 rfl⟩

theorem update_missing_key_witness :
    User.update "ghost" [("firstName", SqlVal.str "X")] dbApp
        = (.error (.notFound "No user: ghost"), dbApp) ∧
    Job.update 99 [("salary", SqlVal.num 1)] dbApp
        = (.error (.notFound "No job: 99"), dbApp) :=
  update_missing_key dbApp "ghost" 99 [("firstName", SqlVal.str "X")]
    [("salary", SqlVal.num 1)] (by decide) (by decide) (by decide) (by decide)
